import Mathlib

/-!
Verification development for a MicroPython deployment CLI (`cli.py`).

The program cross-compiles the project's `.py` files with `mpy-cross` into a
scratch directory `.compiled`, hashes each compiled artifact with SHA-1,
renders a worker script that asks the attached board which files changed,
and transfers (via `ampy put`) the files whose change flag is nonzero, or all
files when `--force` is given.  The scratch directory is removed in a
`finally` block, after which `main.py` is written to the board.

The embedding below models:
  * `hashlib.sha1` as a full SHA-1 implementation over byte lists;
  * the `pathlib` name operations (`suffix`, `with_suffix`), Python's
    `str.split` and `int()` parsing (ASCII decimal, as produced by the
    device-side worker);
  * `cross_compile`, `File.__init__`, and the body of `install` as a pure
    function from (project files, transport oracle, `--force` flag, whether
    the scratch directory pre-exists) to a run outcome (event trace,
    performed transfers, final scratch-directory existence, success flag).
-/

set_option maxHeartbeats 1000000
set_option maxRecDepth 100000

/-! ## SHA-1 (`hashlib.sha1`), over lists of byte values -/

/-- Truncation to a 32-bit word. -/
def w32 (n : Nat) : Nat := n % 4294967296

/-- 32-bit left rotation, for `x < 2 ^ 32`. -/
def rotl (s x : Nat) : Nat := w32 (x * 2 ^ s) + x / 2 ^ (32 - s)

/-- The SHA-1 round function. -/
def sha1F (i b c d : Nat) : Nat :=
  if i < 20 then (b &&& c) ||| ((b ^^^ 4294967295) &&& d)
  else if i < 40 then b ^^^ c ^^^ d
  else if i < 60 then (b &&& c) ||| (b &&& d) ||| (c &&& d)
  else b ^^^ c ^^^ d

/-- The SHA-1 round constants. -/
def sha1K (i : Nat) : Nat :=
  if i < 20 then 1518500249
  else if i < 40 then 1859775393
  else if i < 60 then 2400959708
  else 3395469782

/-- The five 32-bit words of SHA-1 internal state. -/
structure Sha1State where
  h0 : Nat
  h1 : Nat
  h2 : Nat
  h3 : Nat
  h4 : Nat
  deriving DecidableEq

/-- Big-endian 32-bit words from a list of bytes. -/
def toWords : List Nat → List Nat
  | a :: b :: c :: d :: rest => (((a * 256 + b) * 256 + c) * 256 + d) :: toWords rest
  | _ => []

/-- Extend 16 message words to the 80 words of the SHA-1 message schedule.
The accumulator holds the words generated so far, most recent first. -/
def w80 (ws : List Nat) : List Nat :=
  ((List.range 64).foldl
    (fun acc _ =>
      rotl 1 ((acc.getD 2 0) ^^^ (acc.getD 7 0) ^^^ (acc.getD 13 0) ^^^ (acc.getD 15 0)) :: acc)
    ws.reverse).reverse

/-- SHA-1 compression of one 64-byte chunk. -/
def processChunk (st : Sha1State) (chunk : List Nat) : Sha1State :=
  let ws := w80 (toWords chunk)
  let z := (List.zip (List.range 80) ws).foldl
    (fun v iw =>
      match v, iw with
      | (a, b, c, d, e), (i, w) =>
        (w32 (rotl 5 a + sha1F i b c d + e + sha1K i + w), a, rotl 30 b, c, d))
    (st.h0, st.h1, st.h2, st.h3, st.h4)
  match z with
  | (a, b, c, d, e) =>
    ⟨w32 (st.h0 + a), w32 (st.h1 + b), w32 (st.h2 + c), w32 (st.h3 + d), w32 (st.h4 + e)⟩

/-- Take `n` successive 64-byte chunks of a byte list. -/
def chunksGo : Nat → List Nat → List (List Nat)
  | 0, _ => []
  | n + 1, l => l.take 64 :: chunksGo n (l.drop 64)

/-- Split a byte list whose length is a multiple of 64 (as every padded
SHA-1 message is) into its 64-byte chunks. -/
def chunks64 (l : List Nat) : List (List Nat) := chunksGo (l.length / 64) l

/-- Big-endian bytes of a 32-bit word. -/
def be32 (n : Nat) : List Nat := [n / 16777216 % 256, n / 65536 % 256, n / 256 % 256, n % 256]

/-- Big-endian bytes of a 64-bit word. -/
def be64 (n : Nat) : List Nat :=
  [n / 72057594037927936 % 256, n / 281474976710656 % 256, n / 1099511627776 % 256,
   n / 4294967296 % 256, n / 16777216 % 256, n / 65536 % 256, n / 256 % 256, n % 256]

/-- SHA-1 of a byte sequence: padding followed by chunkwise compression.
This is the digest `hashlib.sha1(data).digest()` as a list of 20 byte values. -/
def sha1 (msg : List Nat) : List Nat :=
  let padded :=
    msg ++ 128 :: (List.replicate ((119 - msg.length % 64) % 64) 0 ++ be64 (8 * msg.length))
  let fin := (chunks64 padded).foldl processChunk
    ⟨1732584193, 4023233417, 2562383102, 271733878, 3285377520⟩
  be32 fin.h0 ++ be32 fin.h1 ++ be32 fin.h2 ++ be32 fin.h3 ++ be32 fin.h4

/-! ## String primitives

Python string/`pathlib` operations used by `cli.py`, modelled over the
character list underlying a Lean `String`. -/

/-- Python `name.split(".")` on characters: split at every dot, keeping
empty pieces. -/
def splitDots : List Char → List (List Char)
  | [] => [[]]
  | c :: rest =>
    if c == '.' then [] :: splitDots rest
    else
      match splitDots rest with
      | [] => [[c]]
      | p :: ps => (c :: p) :: ps

/-- Python `".".join(parts)` on characters. -/
def joinDots : List (List Char) → List Char
  | [] => []
  | [p] => p
  | p :: ps => p ++ '.' :: joinDots ps

/-- On the reverse of a name: the characters strictly before the first dot
(that is, the characters after the last dot of the name, reversed), or
`none` when the name contains no dot. -/
def revPref : List Char → Option (List Char)
  | [] => none
  | c :: rest => if c == '.' then some [] else (revPref rest).map (fun l => c :: l)

/-- `pathlib.PurePath.suffix` on the characters of a name: the part of the
name from its last dot on, provided that dot is neither the first nor the
last character; otherwise the empty suffix. -/
def pySuffixL (cs : List Char) : List Char :=
  match revPref cs.reverse with
  | none => []
  | some extRev =>
    if extRev.length + 1 < cs.length ∧ extRev ≠ [] then '.' :: extRev.reverse else []

/-- `pathlib.PurePath.suffix` of a name given as a string. -/
def pySuffix (s : String) : String := String.mk (pySuffixL s.data)

/-- `pathlib.PurePath.with_suffix` on a name: drop the old suffix (if any)
and append the new one. -/
def pyWithSuffix (s suffix : String) : String :=
  String.mk (s.data.take (s.data.length - (pySuffixL s.data).length) ++ suffix.data)

/-- The name of the artifact `cross_compile` writes for a source file of the
given name: `".".join(input_path.name.split(".")[:-1]) + ".mpy"`. -/
def compiledName (s : String) : String :=
  String.mk (joinDots (splitDots s.data).dropLast ++ ".mpy".data)

/-- The whitespace characters recognised by Python's `str.split()`. -/
def isPySpace (c : Char) : Bool :=
  c == ' ' || c == '\t' || c == '\n' || c == '\r' || c == '\x0b' || c == '\x0c'

/-- Python `s.split()` on characters, one pass with an accumulator holding
the current token reversed: whitespace ends the current token (if any),
any other character extends it. -/
def pySplitAux : List Char → List Char → List (List Char)
  | [], acc => if acc = [] then [] else [acc.reverse]
  | c :: rest, acc =>
    if isPySpace c then
      if acc = [] then pySplitAux rest [] else acc.reverse :: pySplitAux rest []
    else pySplitAux rest (c :: acc)

/-- Python `s.split()` on characters: maximal runs of non-whitespace. -/
def pySplitL (cs : List Char) : List (List Char) := pySplitAux cs []

/-- `code_output.strip().split()`: the whitespace-separated tokens of the
device's output (leading/trailing whitespace is already immaterial to
`split()`, so `strip()` does not change the token list). -/
def pySplitWs (s : String) : List String := (pySplitL s.data).map String.mk

/-- The value of an ASCII decimal digit. -/
def digitVal (c : Char) : Option Nat :=
  if '0' ≤ c ∧ c ≤ '9' then some (c.toNat - 48) else none

/-- Digits of a Python decimal integer literal after the first digit:
further digits, with single underscores allowed between digits. -/
def pyDigitsAux : List Char → Nat → Option Nat
  | [], acc => some acc
  | c :: rest, acc =>
    if c == '_' then
      match rest with
      | [] => none
      | d :: ds => (digitVal d).bind fun v => pyDigitsAux ds (acc * 10 + v)
    else (digitVal c).bind fun v => pyDigitsAux rest (acc * 10 + v)

/-- Python `int(s)` on a whitespace-free token (as produced by `split()`),
for ASCII decimal literals: an optional sign followed by digits with
optional single underscores between digits; `none` models `ValueError`. -/
def pyInt (s : String) : Option Int :=
  match s.data with
  | [] => none
  | c :: rest =>
    if c == '-' then
      match rest with
      | [] => none
      | d :: ds => (digitVal d).bind fun v => (pyDigitsAux ds v).map (fun n => -(n : Int))
    else if c == '+' then
      match rest with
      | [] => none
      | d :: ds => (digitVal d).bind fun v => (pyDigitsAux ds v).map (fun n => (n : Int))
    else (digitVal c).bind fun v => (pyDigitsAux rest v).map (fun n => (n : Int))

/-- `str()` of a relative `pathlib` path given by its components:
components joined by `/`, and `"."` for the empty path. -/
def pathStr (parts : List String) : String :=
  match parts with
  | [] => "."
  | p :: ps => ps.foldl (fun acc q => acc ++ "/" ++ q) p

/-- `pathlib.PurePath.name` of a path given by its components. -/
def lastComp (parts : List String) : String := parts.getLast?.getD ""

/-- `PurePath.relative_to`: strip a base prefix from a path, as components;
`none` models the `ValueError` when the path is not below the base. -/
def relative_to (p base : List String) : Option (List String) :=
  if base.isPrefixOf p then some (p.drop base.length) else none

/-! ## The model of `cli.py`

Paths are lists of components.  The project root is `THIS_DIR.parent`; a
project source file's absolute path is `root ++ f.rel`.  The scratch
directory `COMPILE_DIR` is flat, so its contents are an association list
from artifact file name to artifact bytes; storing prepends, and
`List.lookup` finds the most recent binding, which models overwriting. -/

/-- The contents of the scratch directory `COMPILE_DIR`. -/
def Scratch := List (String × List Nat)

/-- A project source file as enumerated by `PROJECT_FILES`: its path
components below the project root, together with the bytes `mpy-cross`
writes for it (`none` models a nonzero `mpy-cross` exit, which makes
`cross_compile` call `exit(...)`). -/
structure SrcFile where
  rel : List String
  compiled? : Option (List Nat)
  deriving DecidableEq

/-- `cross_compile`: compute the artifact name inside `COMPILE_DIR` from the
source file's name alone, run the compiler (which writes the artifact bytes
there on success), and return the artifact name; `none` models the
`exit("Something bad happened!")` on compiler failure. -/
def cross_compile (sc : Scratch) (inputName : String) (compiled? : Option (List Nat)) :
    Option (String × Scratch) :=
  let outName := compiledName inputName
  match compiled? with
  | some bs => some (outName, ((outName, bs) :: sc : Scratch))
  | none => none

/-- The `File` descriptor built by `File.__init__`. -/
structure File where
  path : List String
  path_compiled : String
  hash : List Nat
  path_on_board : String
  dir_path_on_board : String
  deriving DecidableEq

/-- `File.__init__(file_path)`: cross-compile, hash the compiled artifact's
bytes, and compute the on-board path (source path relative to
`THIS_DIR.parent`, suffix swapped to the compiled artifact's suffix) and
on-board directory (source parent relative to `THIS_DIR.parent`).  `none`
models an aborting exception (compiler failure, unreadable artifact, a path
not below the root, or an empty relative path, none of which occur for a
project file). -/
def File.init (root : List String) (sc : Scratch) (file_path : List String)
    (compiled? : Option (List Nat)) : Option (File × Scratch) :=
  match cross_compile sc (lastComp file_path) compiled? with
  | none => none
  | some (outName, sc') =>
    match List.lookup outName sc' with
    | none => none
    | some bs =>
      match relative_to file_path root with
      | none => none
      | some rel =>
        match rel.getLast? with
        | none => none
        | some nm =>
          match relative_to file_path.dropLast root with
          | none => none
          | some relParent =>
            some ({ path := file_path,
                    path_compiled := outName,
                    hash := sha1 bs,
                    path_on_board :=
                      pathStr (rel.dropLast ++ [pyWithSuffix nm (pySuffix outName)]),
                    dir_path_on_board := pathStr relParent }, sc')

/-- The on-board path a source file will receive, computed from the source
file alone (used to state properties of runs). -/
def devPath (f : SrcFile) : String :=
  pathStr (f.rel.dropLast ++
    [pyWithSuffix (f.rel.getLast?.getD "")
      (pySuffix (compiledName (f.rel.getLast?.getD "")))])

/-- `[File(file_path) for file_path in PROJECT_FILES]`: build the descriptor
collection sequentially, threading the scratch directory; also returns the
compile events of the files that were compiled, and `none` when one of the
constructions aborts the run. -/
def compileAll (root : List String) (files : List SrcFile) (sc : Scratch) :
    List String × Option (List File × Scratch) :=
  match files with
  | [] => ([], some ([], sc))
  | f :: rest =>
    match File.init root sc (root ++ f.rel) f.compiled? with
    | none => ([], none)
    | some (fl, sc') =>
      let r := compileAll root rest sc'
      (lastComp (root ++ f.rel) :: r.1, r.2.map (fun p => (fl :: p.1, p.2)))

/-- The descriptor collection of a run, when all constructions succeed. -/
def descriptors (root : List String) (files : List SrcFile) : Option (List File) :=
  (compileAll root files []).2.map Prod.fst

/-- The `(path, hash)` pairs `create_mpy_code` embeds into the worker script
(the part of the manifest the device compares against its hash cache). -/
def create_mpy_code (project_files : List File) : List (String × List Nat) :=
  project_files.map (fun fl => (fl.path_on_board, fl.hash))

/-- The external transport (`ampy`) as an oracle: the output of running the
worker script on the board (`none` models a failing `ampy run`), whether
the k-th `ampy put` of the transfer loop succeeds, and whether the final
`ampy put` of `main.py` succeeds. -/
structure Transport where
  probe? : Option String
  putOk : Nat → Bool
  mainOk : Bool

/-- Observable events of one `install` run. -/
inductive Ev where
  | init
  | compile (name : String)
  | probe
  | transfer (dev : String)
  | cleanup
  | configure
  | done
  | aborted
  deriving DecidableEq

/-- The outcome of one `install` run: its event trace, the `put` transfers
performed (on-board path and bytes sent), whether `COMPILE_DIR` exists
afterwards, and whether the run completed without an exception. -/
structure RunOut where
  trace : List Ev
  transfers : List (String × List Nat)
  compileDirExists : Bool
  ok : Bool
  deriving DecidableEq

/-- The loop `for file, did_change in zip(project_files, code_output.strip().split())`:
`int(did_change)` is evaluated first (a non-integer token raises
`ValueError` before `force` is consulted); on a truthy flag or `force` the
compiled artifact is read from the scratch directory as it is at transfer
time and put to the board.  Returns the transfer events, the transfers, and
whether the loop finished without an exception. -/
def transferLoop (force : Bool) (putOk : Nat → Bool) (sc : Scratch) :
    List (File × String) → Nat → List Ev × List (String × List Nat) × Bool
  | [], _ => ([], [], true)
  | (fl, tok) :: rest, k =>
    match pyInt tok with
    | none => ([], [], false)
    | some n =>
      if !(n == 0) || force then
        match List.lookup fl.path_compiled sc, putOk k with
        | some bs, true =>
          let r := transferLoop force putOk sc rest (k + 1)
          (Ev.transfer fl.path_on_board :: r.1, (fl.path_on_board, bs) :: r.2.1, r.2.2)
        | _, _ => ([], [], false)
      else transferLoop force putOk sc rest k

/-- The body of `install(port, force)`.  `compileDirExists` is whether
`COMPILE_DIR` exists when the run starts: `COMPILE_DIR.mkdir()` then raises
`FileExistsError`.  The `try` block compiles, probes the board and runs the
transfer loop; the `finally` block always runs `clean_compiled()` (an
`rmtree` with `ignore_errors=True`), so the scratch directory is absent
afterwards on every path.  Only after the `finally` does the run configure
`main.py` on the board.  (The subsequent interactive auto-start question
touches neither the board state modelled here nor the scratch directory.) -/
def install (root : List String) (files : List SrcFile) (tr : Transport) (force : Bool)
    (compileDirExists : Bool) : RunOut :=
  if compileDirExists then
    ⟨[Ev.cleanup, Ev.aborted], [], false, false⟩
  else
    let cevs := (compileAll root files []).1.map Ev.compile
    match (compileAll root files []).2 with
    | none => ⟨Ev.init :: cevs ++ [Ev.cleanup, Ev.aborted], [], false, false⟩
    | some (fls, sc) =>
      match tr.probe? with
      | none => ⟨Ev.init :: cevs ++ [Ev.probe, Ev.cleanup, Ev.aborted], [], false, false⟩
      | some out =>
        let r := transferLoop force tr.putOk sc (fls.zip (pySplitWs out)) 0
        if r.2.2 then
          if tr.mainOk then
            ⟨Ev.init :: cevs ++ Ev.probe :: r.1 ++ [Ev.cleanup, Ev.configure, Ev.done],
              r.2.1, false, true⟩
          else
            ⟨Ev.init :: cevs ++ Ev.probe :: r.1 ++ [Ev.cleanup, Ev.aborted],
              r.2.1, false, false⟩
        else
          ⟨Ev.init :: cevs ++ Ev.probe :: r.1 ++ [Ev.cleanup, Ev.aborted],
            r.2.1, false, false⟩

/-- Modelled from the spec: the device-side worker program (the rendered
`mpy_worker.py`, which is not part of the sources here) keeps a persisted
record of the last hash it was given for each on-board path; when run it
prints, for each required file in the order the manifest enumerates them,
`0` if its recorded hash equals the manifest hash and `1` if the file is
new or changed (one flag per line), and it records the manifest's hashes. -/
def deviceProbe (store : List (String × List Nat)) (manifest : List (String × List Nat)) :
    String × List (String × List Nat) :=
  (String.mk ((manifest.map
      (fun ph => if List.lookup ph.1 store = some ph.2 then '0' else '1')).foldr
      (fun c acc => c :: '\n' :: acc) []),
   manifest.foldl (fun st ph => ph :: st) store)

/-- An `install` run against the modelled device: the probe output is
produced by the device-side worker from the manifest of this run's
descriptors, and the device's hash store is updated by the worker run.
Returns the run outcome and the device's hash store afterwards. -/
def installWithDevice (root : List String) (files : List SrcFile) (putOk : Nat → Bool)
    (mainOk : Bool) (force : Bool) (store : List (String × List Nat)) :
    RunOut × List (String × List Nat) :=
  match (compileAll root files []).2 with
  | none => (install root files ⟨none, putOk, mainOk⟩ force false, store)
  | some (fls, _) =>
    let pr := deviceProbe store (create_mpy_code fls)
    (install root files ⟨some pr.1, putOk, mainOk⟩ force false, pr.2)

/-- The transfer decision the loop makes for a token that parses as an
integer: transfer when the integer is nonzero or `--force` is set. -/
def tfFlag (force : Bool) (tok : String) : Bool := !(pyInt tok == some 0) || force

/-! ## Lemmas about the string primitives -/

theorem splitDots_ne_nil (cs : List Char) : splitDots cs ≠ [] := by
  cases cs with
  | nil => simp [splitDots]
  | cons c rest =>
    simp only [splitDots]
    split
    · simp
    · split <;> simp

theorem splitDots_dotfree (l : List Char) (h : ∀ c ∈ l, (c == '.') = false) :
    splitDots l = [l] := by
  induction l with
  | nil => rfl
  | cons c rest ih =>
    have hc : (c == '.') = false := h c (by simp)
    have hr := ih (fun d hd => h d (by simp [hd]))
    simp [splitDots, hc, hr]

theorem splitDots_append_dot (s t : List Char) :
    splitDots (s ++ '.' :: t) = splitDots s ++ splitDots t := by
  induction s with
  | nil => simp [splitDots]
  | cons c s' ih =>
    by_cases hc : (c == '.') = true
    · simp only [List.cons_append, splitDots, hc, if_true, List.append_eq]
      rw [ih]
    · simp only [List.cons_append, splitDots, hc, List.append_eq]
      rw [ih]
      cases h1 : splitDots s' with
      | nil => exact absurd h1 (splitDots_ne_nil s')
      | cons p ps => simp

theorem joinDots_splitDots (s : List Char) : joinDots (splitDots s) = s := by
  induction s with
  | nil => rfl
  | cons c s' ih =>
    cases h1 : splitDots s' with
    | nil => exact absurd h1 (splitDots_ne_nil s')
    | cons p ps =>
      by_cases hc : (c == '.') = true
      · have hcc : c = '.' := by simpa using hc
        subst hcc
        simp only [splitDots, hc, if_true]
        rw [h1]
        simp only [joinDots, List.nil_append]
        rw [← h1, ih]
      · simp only [splitDots, hc]
        rw [h1]
        rw [h1] at ih
        cases ps with
        | nil =>
          simp only [joinDots] at ih ⊢
          rw [ih]
        | cons q qs =>
          simp only [joinDots] at ih ⊢
          rw [List.cons_append, ih]

theorem revPref_append (l rest : List Char) (h : ∀ c ∈ l, (c == '.') = false) :
    revPref (l ++ '.' :: rest) = some l := by
  induction l with
  | nil => simp [revPref]
  | cons c l' ih =>
    have hc : (c == '.') = false := h c (by simp)
    have := ih (fun d hd => h d (by simp [hd]))
    simp [revPref, hc, this]

theorem pySuffixL_append (s ext : List Char) (hs : s ≠ []) (he : ext ≠ [])
    (hd : ∀ c ∈ ext, (c == '.') = false) :
    pySuffixL (s ++ '.' :: ext) = '.' :: ext := by
  have hrev : (s ++ '.' :: ext).reverse = ext.reverse ++ '.' :: s.reverse := by
    simp
  have hdrev : ∀ c ∈ ext.reverse, (c == '.') = false := by
    intro c hc
    exact hd c (List.mem_reverse.mp hc)
  have hlen : 0 < s.length := List.length_pos.mpr hs
  have hlen2 : ext.reverse.length + 1 < (s ++ '.' :: ext).length := by
    simp only [List.length_reverse, List.length_append, List.length_cons]
    omega
  have hne : ext.reverse ≠ [] := by simpa using he
  simp only [pySuffixL, hrev, revPref_append ext.reverse s.reverse hdrev]
  rw [if_pos ⟨hlen2, hne⟩, List.reverse_reverse]

/-- `str.split(".")` then `".".join` of all but the last piece: for a name
of the form `s.ext` with a dot-free `ext`, this recovers `s`. -/
theorem compiledNameL_append (s ext tail : List Char)
    (hd : ∀ c ∈ ext, (c == '.') = false) :
    joinDots (splitDots (s ++ '.' :: ext)).dropLast ++ tail = s ++ tail := by
  rw [splitDots_append_dot, splitDots_dotfree ext hd, List.dropLast_concat,
    joinDots_splitDots]

theorem compiledName_py (s : String) : compiledName (s ++ ".py") = s ++ ".mpy" := by
  apply String.ext
  simp only [compiledName, String.data_append]
  exact compiledNameL_append s.data ['p', 'y'] ['.', 'm', 'p', 'y'] (by decide)

theorem pySuffix_ext (s : String) (ext : List Char) (hs : s.data ≠ []) (he : ext ≠ [])
    (hd : ∀ c ∈ ext, (c == '.') = false) :
    pySuffix (String.mk (s.data ++ '.' :: ext)) = String.mk ('.' :: ext) := by
  simp only [pySuffix]
  rw [pySuffixL_append s.data ext hs he hd]

theorem pySuffix_py (s : String) (hs : s.data ≠ []) : pySuffix (s ++ ".py") = ".py" := by
  have h1 : s ++ ".py" = String.mk (s.data ++ '.' :: ['p', 'y']) := by
    apply String.ext; simp
  rw [h1, pySuffix_ext s ['p', 'y'] hs (by simp) (by decide)]

theorem pySuffix_mpy (s : String) (hs : s.data ≠ []) : pySuffix (s ++ ".mpy") = ".mpy" := by
  have h1 : s ++ ".mpy" = String.mk (s.data ++ '.' :: ['m', 'p', 'y']) := by
    apply String.ext; simp
  rw [h1, pySuffix_ext s ['m', 'p', 'y'] hs (by simp) (by decide)]

theorem pyWithSuffix_py (s t : String) (hs : s.data ≠ []) :
    pyWithSuffix (s ++ ".py") t = s ++ t := by
  apply String.ext
  show (s ++ ".py").data.take
      ((s ++ ".py").data.length - (pySuffixL (s ++ ".py").data).length) ++ t.data
      = (s ++ t).data
  have h1 : (s ++ ".py").data = s.data ++ '.' :: ['p', 'y'] := by
    rw [String.data_append]
  rw [h1, pySuffixL_append s.data ['p', 'y'] hs (by simp) (by decide)]
  have h3 : (s.data ++ '.' :: ['p', 'y']).length - ('.' :: ['p', 'y'] : List Char).length
      = s.data.length := by
    simp
  rw [h3, List.take_left, String.data_append]

/-! ## Lemmas about the model -/

theorem lookup_cons_isSome (k k' : String) (v : List Nat) (l : List (String × List Nat))
    (h : (List.lookup k l).isSome) : (List.lookup k ((k', v) :: l)).isSome := by
  simp only [List.lookup]
  cases hk : k == k' <;> simp [h]

theorem relative_to_append (base rel : List String) :
    relative_to (base ++ rel) base = some rel := by
  simp [relative_to, List.isPrefixOf_iff_prefix, List.prefix_append, List.drop_left]

/-- Characterization of a successful `File.__init__` for a file below the
project root. -/
theorem File.init_some (root : List String) (sc : Scratch) (rel : List String)
    (bs : List Nat) (nm : String) (hrel : rel ≠ []) (hnm : rel.getLast? = some nm) :
    File.init root sc (root ++ rel) (some bs) =
      some ({ path := root ++ rel,
              path_compiled := compiledName nm,
              hash := sha1 bs,
              path_on_board :=
                pathStr (rel.dropLast ++ [pyWithSuffix nm (pySuffix (compiledName nm))]),
              dir_path_on_board := pathStr rel.dropLast },
            ((compiledName nm, bs) :: sc : Scratch)) := by
  have hname : lastComp (root ++ rel) = nm := by
    simp [lastComp, List.getLast?_append, hnm]
  have hdrop : (root ++ rel).dropLast = root ++ rel.dropLast :=
    List.dropLast_append_of_ne_nil root hrel
  simp only [File.init, cross_compile, hname]
  rw [show (List.lookup (compiledName nm)
        (((compiledName nm, bs) :: sc : Scratch)) = some bs) by
      simp [List.lookup]]
  rw [relative_to_append, hdrop, relative_to_append]
  simp [hnm]

/-- Successful descriptor construction for a list of well-formed project
files: the descriptor collection exists, its on-board paths and manifest are
determined by the source files, every artifact is present in the final
scratch directory, and the scratch directory only grows. -/
theorem compileAll_ok (root : List String) :
    ∀ (files : List SrcFile) (sc : Scratch),
    (∀ f ∈ files, f.compiled?.isSome ∧ f.rel ≠ []) →
    ∃ fls sc',
      (compileAll root files sc).2 = some (fls, sc') ∧
      fls.map File.path_on_board = files.map devPath ∧
      create_mpy_code fls =
        files.map (fun f => (devPath f, sha1 (f.compiled?.getD []))) ∧
      (∀ fl ∈ fls, (List.lookup fl.path_compiled sc').isSome) ∧
      (∀ k, (List.lookup k sc).isSome → (List.lookup k sc').isSome) := by
  intro files
  induction files with
  | nil =>
    intro sc _
    exact ⟨[], sc, rfl, rfl, rfl, by simp, fun k h => h⟩
  | cons f rest ih =>
    intro sc hall
    have hf := hall f (by simp)
    have hrest : ∀ g ∈ rest, g.compiled?.isSome ∧ g.rel ≠ [] :=
      fun g hg => hall g (by simp [hg])
    obtain ⟨bs, hbs⟩ := Option.isSome_iff_exists.mp hf.1
    have hrel : f.rel ≠ [] := hf.2
    obtain ⟨nm, hnm⟩ : ∃ nm, f.rel.getLast? = some nm := by
      cases h : f.rel.getLast? with
      | none => exact absurd (List.getLast?_eq_none_iff.mp h) hrel
      | some nm => exact ⟨nm, rfl⟩
    have hinit := File.init_some root sc f.rel bs nm hrel hnm
    obtain ⟨fls', sc', hc, hmap, hman, hlook, hmono⟩ :=
      ih ((compiledName nm, bs) :: sc) hrest
    refine ⟨({ path := root ++ f.rel,
               path_compiled := compiledName nm,
               hash := sha1 bs,
               path_on_board :=
                 pathStr (f.rel.dropLast ++ [pyWithSuffix nm (pySuffix (compiledName nm))]),
               dir_path_on_board := pathStr f.rel.dropLast } : File) :: fls',
           sc', ?_, ?_, ?_, ?_, ?_⟩
    · simp [compileAll, hbs, hinit, hc]
    · simp only [List.map_cons, hmap, List.cons.injEq, and_true]
      simp [devPath, hnm]
    · simp only [create_mpy_code, List.map_cons] at hman ⊢
      rw [hman]
      simp [devPath, hnm, hbs]
    · intro fl hfl
      rcases List.mem_cons.mp hfl with h | h
      · subst h
        apply hmono
        simp [List.lookup]
      · exact hlook fl h
    · intro k hk
      exact hmono k (lookup_cons_isSome k (compiledName nm) bs sc hk)

/-- When every flag of the bitmap parses to `0` and `--force` is not set,
the transfer loop performs no transfer. -/
theorem transferLoop_all_zero (putOk : Nat → Bool) (sc : Scratch) :
    ∀ (pairs : List (File × String)) (k : Nat),
    (∀ p ∈ pairs, pyInt p.2 = some 0) →
    transferLoop false putOk sc pairs k = ([], [], true) := by
  intro pairs
  induction pairs with
  | nil => intro k _; rfl
  | cons p rest ih =>
    intro k hz
    obtain ⟨fl, tok⟩ := p
    have h0 : pyInt tok = some 0 := hz (fl, tok) (by simp)
    simp only [transferLoop, h0]
    simpa using ih k (fun q hq => hz q (by simp [hq]))

/-- When every paired token parses, every descriptor's artifact is in the
scratch directory and every `put` succeeds, the transfer loop finishes
without an exception and performs exactly the transfers selected by
`tfFlag`, in order. -/
theorem transferLoop_all_parse (force : Bool) (putOk : Nat → Bool) (sc : Scratch)
    (hput : ∀ j, putOk j = true) :
    ∀ (pairs : List (File × String)) (k : Nat),
    (∀ p ∈ pairs, (pyInt p.2).isSome) →
    (∀ p ∈ pairs, (List.lookup p.1.path_compiled sc).isSome) →
    transferLoop force putOk sc pairs k =
      ((pairs.filter (fun p => tfFlag force p.2)).map (fun p => Ev.transfer p.1.path_on_board),
       (pairs.filter (fun p => tfFlag force p.2)).map
         (fun p => (p.1.path_on_board, (List.lookup p.1.path_compiled sc).getD [])),
       true) := by
  intro pairs
  induction pairs with
  | nil => intro k _ _; rfl
  | cons p rest ih =>
    intro k hparse hlook
    obtain ⟨fl, tok⟩ := p
    obtain ⟨n, hn⟩ := Option.isSome_iff_exists.mp (hparse (fl, tok) (by simp))
    obtain ⟨bs, hbs⟩ := Option.isSome_iff_exists.mp (hlook (fl, tok) (by simp))
    have hparse' : ∀ q ∈ rest, (pyInt q.2).isSome := fun q hq => hparse q (by simp [hq])
    have hlook' : ∀ q ∈ rest, (List.lookup q.1.path_compiled sc).isSome :=
      fun q hq => hlook q (by simp [hq])
    have hflag : tfFlag force tok = (!(n == 0) || force) := by
      simp [tfFlag, hn]
    by_cases hdec : (!(n == 0) || force) = true
    · simp only [transferLoop, hn, hdec, if_true, hbs, hput k]
      rw [ih (k + 1) hparse' hlook']
      simp [List.filter_cons, hflag, hdec, hbs]
    · have hdec' : (!(n == 0) || force) = false := by
        cases h : (!(n == 0) || force) with
        | true => exact absurd h hdec
        | false => rfl
      simp only [transferLoop, hn, hdec', Bool.false_eq_true, if_false]
      rw [ih k hparse' hlook']
      simp [List.filter_cons, hflag, hdec']

/-- When the k-th paired token fails to parse as an integer, the loop
performs the transfers selected among the earlier pairs and then raises
`ValueError`, regardless of `force`. -/
theorem transferLoop_bad_token (force : Bool) (putOk : Nat → Bool) (sc : Scratch)
    (hput : ∀ j, putOk j = true) :
    ∀ (good : List (File × String)) (bad : File × String) (rest : List (File × String))
      (k : Nat),
    (∀ p ∈ good, (pyInt p.2).isSome) →
    (∀ p ∈ good, (List.lookup p.1.path_compiled sc).isSome) →
    pyInt bad.2 = none →
    transferLoop force putOk sc (good ++ bad :: rest) k =
      ((good.filter (fun p => tfFlag force p.2)).map (fun p => Ev.transfer p.1.path_on_board),
       (good.filter (fun p => tfFlag force p.2)).map
         (fun p => (p.1.path_on_board, (List.lookup p.1.path_compiled sc).getD [])),
       false) := by
  intro good
  induction good with
  | nil =>
    intro bad rest k _ _ hbad
    obtain ⟨fl, tok⟩ := bad
    simp only [List.nil_append, transferLoop, hbad]
    rfl
  | cons p good' ih =>
    intro bad rest k hparse hlook hbad
    obtain ⟨fl, tok⟩ := p
    obtain ⟨n, hn⟩ := Option.isSome_iff_exists.mp (hparse (fl, tok) (by simp))
    obtain ⟨bs, hbs⟩ := Option.isSome_iff_exists.mp (hlook (fl, tok) (by simp))
    have hparse' : ∀ q ∈ good', (pyInt q.2).isSome := fun q hq => hparse q (by simp [hq])
    have hlook' : ∀ q ∈ good', (List.lookup q.1.path_compiled sc).isSome :=
      fun q hq => hlook q (by simp [hq])
    have hflag : tfFlag force tok = (!(n == 0) || force) := by
      simp [tfFlag, hn]
    by_cases hdec : (!(n == 0) || force) = true
    · simp only [List.cons_append, transferLoop, hn, hdec, if_true, hbs, hput k,
        List.append_eq]
      rw [ih bad rest (k + 1) hparse' hlook' hbad]
      simp [List.filter_cons, hflag, hdec, hbs]
    · have hdec' : (!(n == 0) || force) = false := by
        cases h : (!(n == 0) || force) with
        | true => exact absurd h hdec
        | false => rfl
      simp only [List.cons_append, transferLoop, hn, hdec', Bool.false_eq_true, if_false,
        List.append_eq]
      rw [ih bad rest k hparse' hlook' hbad]
      simp [List.filter_cons, hflag, hdec']

theorem tfFlag_force (tok : String) : tfFlag true tok = true := by
  simp [tfFlag]

/-- Every event the transfer loop emits is a transfer event. -/
theorem transferLoop_events (force : Bool) (putOk : Nat → Bool) (sc : Scratch) :
    ∀ (pairs : List (File × String)) (k : Nat),
    ∀ e ∈ (transferLoop force putOk sc pairs k).1, ∃ p, e = Ev.transfer p := by
  intro pairs
  induction pairs with
  | nil => intro k e he; simp [transferLoop] at he
  | cons p rest ih =>
    intro k e he
    obtain ⟨fl, tok⟩ := p
    simp only [transferLoop] at he
    cases hn : pyInt tok with
    | none => rw [hn] at he; simp at he
    | some n =>
      simp only [hn] at he
      by_cases hdec : (!(n == 0) || force) = true
      · rw [if_pos hdec] at he
        cases hl : List.lookup fl.path_compiled sc with
        | none => rw [hl] at he; simp at he
        | some bs =>
          rw [hl] at he
          cases hp : putOk k with
          | false => rw [hp] at he; simp at he
          | true =>
            rw [hp] at he
            simp only [List.mem_cons] at he
            rcases he with h | h
            · exact ⟨fl.path_on_board, h⟩
            · exact ih (k + 1) e h
      · rw [if_neg hdec] at he
        exact ih k e he

theorem foldl_cons_rev (l acc : List (String × List Nat)) :
    l.foldl (fun st ph => ph :: st) acc = l.reverse ++ acc := by
  induction l generalizing acc with
  | nil => simp
  | cons p l' ih => simp [List.foldl_cons, ih]

theorem lookup_append_of_some (k : String) (v : List Nat)
    (l1 l2 : List (String × List Nat)) (h : List.lookup k l1 = some v) :
    List.lookup k (l1 ++ l2) = some v := by
  induction l1 with
  | nil => simp [List.lookup] at h
  | cons q l' ih =>
    simp only [List.lookup, List.cons_append] at h ⊢
    cases hk : k == q.1 with
    | true => rw [hk] at h; exact h
    | false => rw [hk] at h; exact ih h

theorem lookup_of_mem_nodup (l : List (String × List Nat)) (p : String × List Nat)
    (hn : (l.map Prod.fst).Nodup) (hm : p ∈ l) : List.lookup p.1 l = some p.2 := by
  induction l with
  | nil => simp at hm
  | cons q l' ih =>
    simp only [List.map_cons, List.nodup_cons] at hn
    rcases List.mem_cons.mp hm with h | h
    · subst h
      simp [List.lookup]
    · have hne : ¬(p.1 == q.1) = true := by
        intro hb
        have : p.1 = q.1 := by simpa using hb
        exact hn.1 (this ▸ List.mem_map.mpr ⟨p, h, rfl⟩)
      simp only [List.lookup]
      rw [show (p.1 == q.1) = false by simpa using hne]
      exact ih hn.2 h

/-- Splitting the device worker's output (one non-whitespace flag character
per line) recovers exactly the one-character tokens. -/
theorem pySplitL_flags (fs : List Char) (h : ∀ c ∈ fs, isPySpace c = false) :
    pySplitL (fs.foldr (fun c acc => c :: '\n' :: acc) []) = fs.map (fun c => [c]) := by
  induction fs with
  | nil => rfl
  | cons c rest ih =>
    have hc : isPySpace c = false := h c (by simp)
    have hnl : isPySpace '\n' = true := by decide
    have ih' := ih (fun d hd => h d (by simp [hd]))
    simp only [pySplitL] at ih' ⊢
    simp only [List.foldr_cons, List.map_cons]
    rw [show pySplitAux (c :: '\n' :: rest.foldr (fun c acc => c :: '\n' :: acc) []) []
          = pySplitAux ('\n' :: rest.foldr (fun c acc => c :: '\n' :: acc) []) [c] by
        rw [pySplitAux]
        simp [hc]]
    rw [show pySplitAux ('\n' :: rest.foldr (fun c acc => c :: '\n' :: acc) []) [c]
          = [c] :: pySplitAux (rest.foldr (fun c acc => c :: '\n' :: acc) []) [] by
        rw [pySplitAux]
        simp [hnl]]
    rw [ih']

/-- String-level corollary of `pySplitL_flags`. -/
theorem pySplitWs_flags (fs : List Char) (h : ∀ c ∈ fs, isPySpace c = false) :
    pySplitWs (String.mk (fs.foldr (fun c acc => c :: '\n' :: acc) []))
      = (fs.map (fun c => [c])).map String.mk := by
  show (pySplitL (fs.foldr (fun c acc => c :: '\n' :: acc) [])).map String.mk = _
  rw [pySplitL_flags fs h]

/-- Transport of the filtered transfer projection along equal images of the
descriptor and source lists. -/
theorem zip_filter_map {α : Type} (g : File → α) (g' : SrcFile → α) (tf : String → Bool) :
    ∀ (xs : List File) (ys : List SrcFile) (toks : List String),
    xs.map g = ys.map g' →
    ((xs.zip toks).filter (fun p => tf p.2)).map (fun p => g p.1)
      = ((ys.zip toks).filter (fun p => tf p.2)).map (fun p => g' p.1) := by
  intro xs
  induction xs with
  | nil =>
    intro ys toks hmap
    have hys : ys = [] := by
      have h0 : List.map g' ys = [] := by simpa using hmap.symm
      exact List.map_eq_nil_iff.mp h0
    subst hys
    simp
  | cons x xs' ih =>
    intro ys toks hmap
    cases ys with
    | nil => simp at hmap
    | cons y ys' =>
      simp only [List.map_cons, List.cons.injEq] at hmap
      cases toks with
      | nil => simp
      | cons t ts =>
        simp only [List.zip_cons_cons, List.filter_cons]
        have hh : g x = g' y := hmap.1
        cases htf : tf t with
        | true => simp [htf, ih ys' ts hmap.2, hh]
        | false => simp [htf, ih ys' ts hmap.2]

/-- With `--force`, the loop decision is uniformly true, so the filtered
zip projects to the whole descriptor list when there are enough tokens. -/
theorem zip_map_fst_of_le {α γ : Type} (g : α → γ) :
    ∀ (xs : List α) (toks : List String), xs.length ≤ toks.length →
    (xs.zip toks).map (fun p => g p.1) = xs.map g := by
  intro xs
  induction xs with
  | nil => intro toks _; simp
  | cons x xs' ih =>
    intro toks hlen
    cases toks with
    | nil => simp at hlen
    | cons t ts =>
      simp only [List.zip_cons_cons, List.map_cons]
      rw [ih ts (by simpa using hlen)]

/-- Splitting a zip at the position of a distinguished token. -/
theorem zip_split (t : String) :
    ∀ (ys : List String) (xs : List File) (ts : List String),
    ys.length < xs.length →
    ∃ x xs', xs = xs.take ys.length ++ x :: xs' ∧
      xs.zip (ys ++ t :: ts) = ((xs.take ys.length).zip ys) ++ (x, t) :: (xs'.zip ts) := by
  intro ys
  induction ys with
  | nil =>
    intro xs ts hlen
    cases xs with
    | nil => simp at hlen
    | cons x xs' => exact ⟨x, xs', by simp, by simp⟩
  | cons y ys' ih =>
    intro xs ts hlen
    cases xs with
    | nil => simp at hlen
    | cons x0 xs0 =>
      obtain ⟨x, xs', h1, h2⟩ := ih xs0 ts (by simpa using Nat.lt_of_succ_lt_succ hlen)
      refine ⟨x, xs', ?_, ?_⟩
      · simp only [List.length_cons, List.take_succ_cons]
        rw [List.cons_append, ← h1]
      · simp only [List.cons_append, List.zip_cons_cons, List.length_cons,
          List.take_succ_cons]
        rw [h2]

theorem mem_zip_snd_take :
    ∀ (xs : List File) (toks : List String) (p : File × String),
    p ∈ xs.zip toks → p.2 ∈ toks.take xs.length := by
  intro xs
  induction xs with
  | nil => intro toks p hp; simp at hp
  | cons x xs' ih =>
    intro toks p hp
    cases toks with
    | nil => simp at hp
    | cons t ts =>
      simp only [List.zip_cons_cons, List.mem_cons] at hp
      rcases hp with h | h
      · subst h; simp
      · simp only [List.length_cons, List.take_succ_cons, List.mem_cons]
        exact Or.inr (ih ts p h)

/-- SHA-1 digests are 20 bytes long. -/
theorem sha1_length (msg : List Nat) : (sha1 msg).length = 20 := by
  simp [sha1, be32]

/-- A successful `File.__init__` hashes exactly the bytes the compiler wrote
for this source file. -/
theorem File.init_hash (root : List String) (sc : Scratch) (fp : List String)
    (bs : List Nat) (fl : File) (p : Scratch)
    (h : File.init root sc fp (some bs) = some (fl, p)) : fl.hash = sha1 bs := by
  simp only [File.init, cross_compile] at h
  rw [show List.lookup (compiledName (lastComp fp))
        (((compiledName (lastComp fp), bs) :: sc : Scratch)) = some bs by
      simp [List.lookup]] at h
  cases h1 : relative_to fp root with
  | none => simp [h1] at h
  | some rel =>
    simp only [h1] at h
    cases h2 : rel.getLast? with
    | none => simp [h2] at h
    | some nm =>
      simp only [h2] at h
      cases h3 : relative_to fp.dropLast root with
      | none => simp [h3] at h
      | some relParent =>
        simp only [h3, Option.some.injEq, Prod.mk.injEq] at h
        rw [← h.1]

/-- The common shape of a run whose probe succeeds and whose paired tokens
all parse: it finishes exactly when the `main.py` upload succeeds, and it
transfers exactly the files selected by the flags (or `--force`), the
positional zip silently truncating either sequence to the shorter one. -/
theorem install_probe_run (root : List String) (files : List SrcFile) (putOk : Nat → Bool)
    (mainOk : Bool) (out : String) (force : Bool)
    (hall : ∀ f ∈ files, f.compiled?.isSome ∧ f.rel ≠ [])
    (hput : ∀ j, putOk j = true)
    (hparse : ∀ tok ∈ (pySplitWs out).take files.length, (pyInt tok).isSome) :
    (install root files ⟨some out, putOk, mainOk⟩ force false).ok = mainOk ∧
    (install root files ⟨some out, putOk, mainOk⟩ force false).transfers.map Prod.fst =
      ((files.zip (pySplitWs out)).filter (fun p => tfFlag force p.2)).map
        (fun p => devPath p.1) := by
  obtain ⟨fls, sc, hc, hmap, hman, hlook, _⟩ := compileAll_ok root files [] hall
  have hlenf : fls.length = files.length := by simpa using congrArg List.length hmap
  have hparse' : ∀ q ∈ fls.zip (pySplitWs out), (pyInt q.2).isSome := by
    intro q hq
    apply hparse
    have := mem_zip_snd_take fls (pySplitWs out) q hq
    rwa [hlenf] at this
  have hlook' : ∀ q ∈ fls.zip (pySplitWs out), (List.lookup q.1.path_compiled sc).isSome :=
    fun q hq => hlook q.1 (List.of_mem_zip hq).1
  have htl := transferLoop_all_parse force putOk sc hput (fls.zip (pySplitWs out)) 0
    hparse' hlook'
  constructor
  · cases hm : mainOk <;> simp [install, hc, htl, hm]
  · have htr : (install root files ⟨some out, putOk, mainOk⟩ force false).transfers =
        ((fls.zip (pySplitWs out)).filter (fun p => tfFlag force p.2)).map
          (fun p => (p.1.path_on_board, (List.lookup p.1.path_compiled sc).getD [])) := by
      cases hm : mainOk <;> simp [install, hc, htl, hm]
    rw [htr]
    have hmm : (((fls.zip (pySplitWs out)).filter (fun p => tfFlag force p.2)).map
        (fun p => (p.1.path_on_board, (List.lookup p.1.path_compiled sc).getD []))).map
          Prod.fst
        = ((fls.zip (pySplitWs out)).filter (fun p => tfFlag force p.2)).map
            (fun p => File.path_on_board p.1) := by
      simp [List.map_map, Function.comp]
    rw [hmm]
    exact zip_filter_map File.path_on_board devPath (tfFlag force) fls files
      (pySplitWs out) hmap

/-- Claim C4: after every run of install — whether it completes, a compile
fails partway, or a transport command fails partway — the scratch directory
does not exist afterwards; the cleanup step runs on the success path and on
every error path. -/
theorem C4_cleanup_always (root : List String) (files : List SrcFile) (tr : Transport)
    (force d : Bool) :
    (install root files tr force d).compileDirExists = false ∧
    Ev.cleanup ∈ (install root files tr force d).trace := by
  cases d with
  | true => constructor <;> simp [install]
  | false =>
    cases hc : (compileAll root files []).2 with
    | none => constructor <;> simp [install, hc]
    | some p =>
      obtain ⟨fls, sc⟩ := p
      cases hp : tr.probe? with
      | none => constructor <;> simp [install, hc, hp]
      | some out =>
        cases hr : (transferLoop force tr.putOk sc (fls.zip (pySplitWs out)) 0).2.2 with
        | true =>
          cases hm : tr.mainOk with
          | true => constructor <;> simp [install, hc, hp, hr, hm]
          | false => constructor <;> simp [install, hc, hp, hr, hm]
        | false => constructor <;> simp [install, hc, hp, hr]

/-- Claim C6: if the scratch directory already exists when install starts,
the run fails at scratch-directory creation: nothing is compiled, the board
is never probed, nothing is transferred, and the run aborts (the cleanup of
the `finally` block still removes the directory). -/
theorem C6_preexisting_scratch_aborts (root : List String) (files : List SrcFile)
    (tr : Transport) (force : Bool) :
    (install root files tr force true).ok = false ∧
    (install root files tr force true).transfers = [] ∧
    (∀ nm, Ev.compile nm ∉ (install root files tr force true).trace) ∧
    Ev.probe ∉ (install root files tr force true).trace ∧
    (∀ p, Ev.transfer p ∉ (install root files tr force true).trace) ∧
    (install root files tr force true).compileDirExists = false := by
  refine ⟨rfl, rfl, ?_, ?_, ?_, rfl⟩ <;> simp [install]

theorem C6_witness :
    (install ["r"] [] ⟨none, fun _ => true, true⟩ false true).ok = false :=
  (C6_preexisting_scratch_aborts ["r"] [] ⟨none, fun _ => true, true⟩ false).1

/-- Claim C1 counterexample: one project file, `--force` set, and a device
response whose change bitmap is empty — the run completes successfully yet
transfers nothing, so with `--force` the file is not transferred exactly
once regardless of the bitmap's content. -/
theorem C1_counterexample :
    (install ["r"] [⟨["pkg", "x.py"], some [1]⟩] ⟨some "", fun _ => true, true⟩
        true false).ok = true ∧
    (install ["r"] [⟨["pkg", "x.py"], some [1]⟩] ⟨some "", fun _ => true, true⟩
        true false).transfers = [] := by
  constructor <;> rfl

/-- Claim C1 (amended): running install with `--force` transfers each file's
compiled artifact to its device path exactly once, in order, regardless of
the values of the change flags — provided the change bitmap carries at least
as many tokens as there are files and every token paired with a file parses
as an integer. -/
theorem C1_force_transfers_all (root : List String) (files : List SrcFile)
    (putOk : Nat → Bool) (mainOk : Bool) (out : String)
    (hall : ∀ f ∈ files, f.compiled?.isSome ∧ f.rel ≠ [])
    (hput : ∀ j, putOk j = true)
    (hlen : files.length ≤ (pySplitWs out).length)
    (hparse : ∀ tok ∈ (pySplitWs out).take files.length, (pyInt tok).isSome) :
    (install root files ⟨some out, putOk, mainOk⟩ true false).transfers.map Prod.fst
      = files.map devPath := by
  have h := (install_probe_run root files putOk mainOk out true hall hput hparse).2
  rw [h]
  rw [show (files.zip (pySplitWs out)).filter (fun p => tfFlag true p.2)
        = files.zip (pySplitWs out) from
      List.filter_eq_self.mpr (fun p _ => tfFlag_force p.2)]
  exact zip_map_fst_of_le devPath files (pySplitWs out) hlen

theorem C1_force_transfers_all_witness :
    (install ["r"] [⟨["pkg", "x.py"], some [1]⟩] ⟨some "5\n", fun _ => true, true⟩
        true false).transfers.map Prod.fst
      = [(⟨["pkg", "x.py"], some [1]⟩ : SrcFile)].map devPath :=
  C1_force_transfers_all ["r"] [⟨["pkg", "x.py"], some [1]⟩] (fun _ => true) true "5\n"
    (by decide) (fun _ => rfl) (by decide) (by decide)

/-- Claim C2: when the change bitmap's length differs from the number of
descriptors, install raises no error — the positional zip silently truncates
to the shorter sequence, so descriptors beyond the bitmap's length and flags
beyond the descriptor count are ignored in the transfer decision (assuming
the flags that are paired with a file are well-formed integers). -/
theorem C2_mismatch_truncates (root : List String) (files : List SrcFile)
    (putOk : Nat → Bool) (out : String) (force : Bool)
    (hall : ∀ f ∈ files, f.compiled?.isSome ∧ f.rel ≠ [])
    (hput : ∀ j, putOk j = true)
    (hparse : ∀ tok ∈ (pySplitWs out).take files.length, (pyInt tok).isSome) :
    (install root files ⟨some out, putOk, true⟩ force false).ok = true ∧
    (install root files ⟨some out, putOk, true⟩ force false).transfers.map Prod.fst =
      ((files.zip (pySplitWs out)).filter (fun p => tfFlag force p.2)).map
        (fun p => devPath p.1) :=
  install_probe_run root files putOk true out force hall hput hparse

theorem C2_mismatch_truncates_witness :
    (install ["r"] [⟨["a", "x.py"], some [1]⟩, ⟨["b", "y.py"], some [2]⟩]
        ⟨some "1", fun _ => true, true⟩ false false).ok = true ∧
    (install ["r"] [⟨["a", "x.py"], some [1]⟩, ⟨["b", "y.py"], some [2]⟩]
        ⟨some "1", fun _ => true, true⟩ false false).transfers.map Prod.fst =
      (([(⟨["a", "x.py"], some [1]⟩ : SrcFile), ⟨["b", "y.py"], some [2]⟩].zip
          (pySplitWs "1")).filter (fun p => tfFlag false p.2)).map
        (fun p => devPath p.1) :=
  C2_mismatch_truncates ["r"] [⟨["a", "x.py"], some [1]⟩, ⟨["b", "y.py"], some [2]⟩]
    (fun _ => true) "1" false (by decide) (fun _ => rfl) (by decide)

/-- Claim C10: (a) when every token paired with a descriptor parses as a
decimal integer, a file is transferred exactly when its flag is nonzero or
force is set; (b) a token that is not a valid integer aborts the run before
`force` is even consulted — the files paired with earlier tokens have been
transferred, the file paired with the bad token and everything after it is
not, the run is aborted, and the scratch directory is still cleaned up. -/
theorem C10_flag_parsing :
    (∀ (root : List String) (files : List SrcFile) (putOk : Nat → Bool) (mainOk : Bool)
       (out : String) (force : Bool),
       (∀ f ∈ files, f.compiled?.isSome ∧ f.rel ≠ []) →
       (∀ j, putOk j = true) →
       (∀ tok ∈ (pySplitWs out).take files.length, (pyInt tok).isSome) →
       (install root files ⟨some out, putOk, mainOk⟩ force false).transfers.map Prod.fst =
         ((files.zip (pySplitWs out)).filter (fun p => tfFlag force p.2)).map
           (fun p => devPath p.1)) ∧
    (∀ (root : List String) (files : List SrcFile) (putOk : Nat → Bool) (mainOk : Bool)
       (out : String) (force : Bool) (toks1 : List String) (tk : String)
       (toks2 : List String),
       (∀ f ∈ files, f.compiled?.isSome ∧ f.rel ≠ []) →
       (∀ j, putOk j = true) →
       pySplitWs out = toks1 ++ tk :: toks2 →
       pyInt tk = none →
       toks1.length < files.length →
       (∀ tok ∈ toks1, (pyInt tok).isSome) →
       (install root files ⟨some out, putOk, mainOk⟩ force false).ok = false ∧
       (install root files ⟨some out, putOk, mainOk⟩ force false).compileDirExists
         = false ∧
       (install root files ⟨some out, putOk, mainOk⟩ force false).transfers.map Prod.fst =
         (((files.take toks1.length).zip toks1).filter (fun p => tfFlag force p.2)).map
           (fun p => devPath p.1)) := by
  constructor
  · intro root files putOk mainOk out force hall hput hparse
    exact (install_probe_run root files putOk mainOk out force hall hput hparse).2
  · intro root files putOk mainOk out force toks1 tk toks2 hall hput hsplit hbad hlen1
      hparse1
    obtain ⟨fls, sc, hc, hmap, hman, hlook, _⟩ := compileAll_ok root files [] hall
    have hlenf : fls.length = files.length := by simpa using congrArg List.length hmap
    have hlt : toks1.length < fls.length := by rw [hlenf]; exact hlen1
    obtain ⟨x, xs', hxs, hzip⟩ := zip_split tk toks1 fls toks2 hlt
    have hgoodparse : ∀ q ∈ (fls.take toks1.length).zip toks1, (pyInt q.2).isSome :=
      fun q hq => hparse1 q.2 (List.of_mem_zip hq).2
    have hgoodlook : ∀ q ∈ (fls.take toks1.length).zip toks1,
        (List.lookup q.1.path_compiled sc).isSome :=
      fun q hq => hlook q.1 (List.take_subset _ _ (List.of_mem_zip hq).1)
    have htl := transferLoop_bad_token force putOk sc hput
      ((fls.take toks1.length).zip toks1) (x, tk) (xs'.zip toks2) 0
      hgoodparse hgoodlook hbad
    have htl' : transferLoop force putOk sc (fls.zip (pySplitWs out)) 0 =
        ((((fls.take toks1.length).zip toks1).filter (fun p => tfFlag force p.2)).map
           (fun p => Ev.transfer p.1.path_on_board),
         (((fls.take toks1.length).zip toks1).filter (fun p => tfFlag force p.2)).map
           (fun p => (p.1.path_on_board, (List.lookup p.1.path_compiled sc).getD [])),
         false) := by
      rw [hsplit, hzip]
      exact htl
    refine ⟨?_, ?_, ?_⟩
    · simp [install, hc, htl']
    · simp [install, hc, htl']
    · have htr : (install root files ⟨some out, putOk, mainOk⟩ force false).transfers =
          (((fls.take toks1.length).zip toks1).filter (fun p => tfFlag force p.2)).map
            (fun p => (p.1.path_on_board, (List.lookup p.1.path_compiled sc).getD [])) := by
        simp [install, hc, htl']
      rw [htr]
      have hmm : ((((fls.take toks1.length).zip toks1).filter
            (fun p => tfFlag force p.2)).map
            (fun p => (p.1.path_on_board, (List.lookup p.1.path_compiled sc).getD []))).map
              Prod.fst
          = (((fls.take toks1.length).zip toks1).filter (fun p => tfFlag force p.2)).map
              (fun p => File.path_on_board p.1) := by
        simp [List.map_map, Function.comp]
      rw [hmm]
      have htake : (fls.take toks1.length).map File.path_on_board
          = (files.take toks1.length).map devPath := by
        rw [List.map_take, List.map_take, hmap]
      exact zip_filter_map File.path_on_board devPath (tfFlag force) _ _ toks1 htake

theorem C10_flag_parsing_witness :
    ((install ["r"] [⟨["a", "x.py"], some [1]⟩] ⟨some "1\n", fun _ => true, true⟩
        false false).transfers.map Prod.fst =
      (([(⟨["a", "x.py"], some [1]⟩ : SrcFile)].zip (pySplitWs "1\n")).filter
          (fun p => tfFlag false p.2)).map (fun p => devPath p.1)) ∧
    ((install ["r"] [⟨["a", "x.py"], some [1]⟩, ⟨["b", "y.py"], some [2]⟩]
        ⟨some "1 zz", fun _ => true, true⟩ true false).ok = false ∧
     (install ["r"] [⟨["a", "x.py"], some [1]⟩, ⟨["b", "y.py"], some [2]⟩]
        ⟨some "1 zz", fun _ => true, true⟩ true false).compileDirExists = false ∧
     (install ["r"] [⟨["a", "x.py"], some [1]⟩, ⟨["b", "y.py"], some [2]⟩]
        ⟨some "1 zz", fun _ => true, true⟩ true false).transfers.map Prod.fst =
       ((([(⟨["a", "x.py"], some [1]⟩ : SrcFile),
            ⟨["b", "y.py"], some [2]⟩].take 1).zip ["1"]).filter
           (fun p => tfFlag true p.2)).map (fun p => devPath p.1)) :=
  ⟨C10_flag_parsing.1 ["r"] [⟨["a", "x.py"], some [1]⟩] (fun _ => true) true "1\n" false
     (by decide) (fun _ => rfl) (by decide),
   C10_flag_parsing.2 ["r"] [⟨["a", "x.py"], some [1]⟩, ⟨["b", "y.py"], some [2]⟩]
     (fun _ => true) true "1 zz" true ["1"] "zz" [] (by decide) (fun _ => rfl)
     (by decide) (by decide) (by decide) (by decide)⟩

/-- Claim C5 counterexample: in a concrete successful run the trace shows
the cleanup of the scratch directory at position 4 and the configuring of
`main.py` at position 5 — Cleanup strictly precedes Configuring, refuting
the claimed order Transferring → Configuring → Cleanup. -/
theorem C5_counterexample :
    (install ["r"] [⟨["pkg", "x.py"], some [1]⟩] ⟨some "1\n", fun _ => true, true⟩
        false false).ok = true ∧
    (install ["r"] [⟨["pkg", "x.py"], some [1]⟩] ⟨some "1\n", fun _ => true, true⟩
        false false).trace =
      [Ev.init, Ev.compile "x.py", Ev.probe, Ev.transfer "pkg/x.mpy",
       Ev.cleanup, Ev.configure, Ev.done] ∧
    (install ["r"] [⟨["pkg", "x.py"], some [1]⟩] ⟨some "1\n", fun _ => true, true⟩
        false false).trace[4]? = some Ev.cleanup ∧
    (install ["r"] [⟨["pkg", "x.py"], some [1]⟩] ⟨some "1\n", fun _ => true, true⟩
        false false).trace[5]? = some Ev.configure := by
  refine ⟨by decide, by decide, by decide, by decide⟩

/-- Claim C5 (amended): in every successful run the stages are ordered
Init → Compiling → Probing → Transferring → Cleanup → Configuring → Done:
the Configuring of `main.py` happens after Transferring completes, but
strictly after the Cleanup of the scratch directory (the `finally` block),
not before it. -/
theorem C5_cleanup_before_configure (root : List String) (files : List SrcFile)
    (tr : Transport) (force d : Bool)
    (hok : (install root files tr force d).ok = true) :
    ∃ cevs tevs,
      (∀ e ∈ cevs, ∃ nm, e = Ev.compile nm) ∧
      (∀ e ∈ tevs, ∃ p, e = Ev.transfer p) ∧
      (install root files tr force d).trace =
        Ev.init :: cevs ++ Ev.probe :: tevs ++ [Ev.cleanup, Ev.configure, Ev.done] := by
  cases d with
  | true => simp [install] at hok
  | false =>
    cases hc : (compileAll root files []).2 with
    | none => simp [install, hc] at hok
    | some p =>
      obtain ⟨fls, sc⟩ := p
      cases hp : tr.probe? with
      | none => simp [install, hc, hp] at hok
      | some out =>
        cases hr : (transferLoop force tr.putOk sc (fls.zip (pySplitWs out)) 0).2.2 with
        | false => simp [install, hc, hp, hr] at hok
        | true =>
          cases hm : tr.mainOk with
          | false => simp [install, hc, hp, hr, hm] at hok
          | true =>
            refine ⟨(compileAll root files []).1.map Ev.compile,
              (transferLoop force tr.putOk sc (fls.zip (pySplitWs out)) 0).1,
              ?_, ?_, ?_⟩
            · intro e he
              obtain ⟨nm, _, hnm⟩ := List.mem_map.mp he
              exact ⟨nm, hnm.symm⟩
            · exact transferLoop_events force tr.putOk sc (fls.zip (pySplitWs out)) 0
            · simp [install, hc, hp, hr, hm]

theorem C5_cleanup_before_configure_witness :
    ∃ cevs tevs,
      (∀ e ∈ cevs, ∃ nm, e = Ev.compile nm) ∧
      (∀ e ∈ tevs, ∃ p, e = Ev.transfer p) ∧
      (install ["r"] [⟨["pkg", "y.py"], some [3]⟩] ⟨some "0\n", fun _ => true, true⟩
          false false).trace =
        Ev.init :: cevs ++ Ev.probe :: tevs ++ [Ev.cleanup, Ev.configure, Ev.done] :=
  C5_cleanup_before_configure ["r"] [⟨["pkg", "y.py"], some [3]⟩]
    ⟨some "0\n", fun _ => true, true⟩ false false (by decide)

/-- When every token of the device output parses to zero and `--force` is
not set, the run transfers nothing (on any path). -/
theorem install_transfers_nil_of_all_zero (root : List String) (files : List SrcFile)
    (putOk : Nat → Bool) (mainOk : Bool) (out : String) (d : Bool)
    (hz : ∀ tok ∈ pySplitWs out, pyInt tok = some 0) :
    (install root files ⟨some out, putOk, mainOk⟩ false d).transfers = [] := by
  cases d with
  | true => rfl
  | false =>
    cases hc : (compileAll root files []).2 with
    | none => simp [install, hc]
    | some p =>
      obtain ⟨fls, sc⟩ := p
      have htl := transferLoop_all_zero putOk sc (fls.zip (pySplitWs out)) 0
        (fun q hq => hz q.2 (List.of_mem_zip hq).2)
      cases hm : mainOk <;> simp [install, hc, htl, hm]

/-- Claim C3: (i) if, without `--force`, every flag of the device's change
bitmap parses to zero, install transfers zero files; (ii) in particular,
against the spec-modelled device-side worker, running install twice in
succession without force and with device state unchanged in between makes
the second run transfer zero files. -/
theorem C3_unchanged_transfers_nothing :
    (∀ (root : List String) (files : List SrcFile) (putOk : Nat → Bool) (mainOk : Bool)
       (out : String) (d : Bool),
       (∀ tok ∈ pySplitWs out, pyInt tok = some 0) →
       (install root files ⟨some out, putOk, mainOk⟩ false d).transfers = []) ∧
    (∀ (root : List String) (files : List SrcFile) (putOk1 putOk2 : Nat → Bool)
       (mainOk1 mainOk2 : Bool) (store : List (String × List Nat)),
       (∀ f ∈ files, f.compiled?.isSome ∧ f.rel ≠ []) →
       (files.map devPath).Nodup →
       (installWithDevice root files putOk2 mainOk2 false
          (installWithDevice root files putOk1 mainOk1 false store).2).1.transfers
         = []) := by
  constructor
  · exact install_transfers_nil_of_all_zero
  · intro root files putOk1 putOk2 mainOk1 mainOk2 store hall hnodup
    obtain ⟨fls, sc, hc, hmap, hman, hlook, _⟩ := compileAll_ok root files [] hall
    have hiw1 : (installWithDevice root files putOk1 mainOk1 false store).2
        = (create_mpy_code fls).reverse ++ store := by
      simp only [installWithDevice, hc, deviceProbe]
      exact foldl_cons_rev _ _
    have hkeys : ((create_mpy_code fls).map Prod.fst).Nodup := by
      have hk : (create_mpy_code fls).map Prod.fst = fls.map File.path_on_board := by
        simp [create_mpy_code, List.map_map, Function.comp]
      rw [hk, hmap]
      exact hnodup
    have hlookup : ∀ ph ∈ create_mpy_code fls,
        List.lookup ph.1 ((create_mpy_code fls).reverse ++ store) = some ph.2 := by
      intro ph hph
      apply lookup_append_of_some
      apply lookup_of_mem_nodup
      · rw [List.map_reverse]
        exact List.nodup_reverse.mpr hkeys
      · exact List.mem_reverse.mpr hph
    have hflags : (create_mpy_code fls).map
        (fun ph =>
          if List.lookup ph.1 ((create_mpy_code fls).reverse ++ store) = some ph.2
          then '0' else '1')
        = (create_mpy_code fls).map (fun _ => '0') :=
      List.map_congr_left (fun ph hph => if_pos (hlookup ph hph))
    have hz2 : ∀ tok ∈ pySplitWs
        (deviceProbe ((create_mpy_code fls).reverse ++ store) (create_mpy_code fls)).1,
        pyInt tok = some 0 := by
      intro tok htok
      simp only [deviceProbe] at htok
      rw [hflags] at htok
      rw [pySplitWs_flags ((create_mpy_code fls).map (fun _ => '0'))
        (by intro c hcm; obtain ⟨_, _, hcc⟩ := List.mem_map.mp hcm; rw [← hcc]; decide)]
        at htok
      obtain ⟨cs, hcs, htok'⟩ := List.mem_map.mp htok
      obtain ⟨c, hcm, hcc⟩ := List.mem_map.mp hcs
      obtain ⟨_, _, hc0⟩ := List.mem_map.mp hcm
      rw [← htok', ← hcc, ← hc0]
      decide
    have hfin := install_transfers_nil_of_all_zero root files putOk2 mainOk2
      (deviceProbe ((create_mpy_code fls).reverse ++ store) (create_mpy_code fls)).1
      false hz2
    rw [hiw1]
    simp only [installWithDevice, hc]
    exact hfin

theorem C3_unchanged_transfers_nothing_witness :
    ((install ["r"] [⟨["pkg", "x.py"], some [1]⟩] ⟨some "0\n", fun _ => true, true⟩
        false false).transfers = []) ∧
    ((installWithDevice ["r"] [⟨["pkg", "x.py"], some [1]⟩] (fun _ => true) true false
        (installWithDevice ["r"] [⟨["pkg", "x.py"], some [1]⟩] (fun _ => true) true
          false []).2).1.transfers = []) :=
  ⟨C3_unchanged_transfers_nothing.1 ["r"] [⟨["pkg", "x.py"], some [1]⟩] (fun _ => true)
     true "0\n" false (by decide),
   C3_unchanged_transfers_nothing.2 ["r"] [⟨["pkg", "x.py"], some [1]⟩] (fun _ => true)
     (fun _ => true) true true [] (by decide) (by decide)⟩

/-- Claim C7: for a project source file `<dir>/<stem>.py` below the project
root, the descriptor's on-board path is the source path relativized to the
root with the extension swapped to the compiled artifact's extension
(`.mpy`, the suffix of `path_compiled`), never the source extension
(`.py`), and the on-board directory is the source parent directory
relativized to the root. -/
theorem C7_device_path (root d : List String) (s : String) (bs : List Nat) (sc : Scratch)
    (hs : s.data ≠ []) :
    ∃ fl sc',
      File.init root sc (root ++ (d ++ [s ++ ".py"])) (some bs) = some (fl, sc') ∧
      fl.path_on_board = pathStr (d ++ [s ++ ".mpy"]) ∧
      pySuffix fl.path_compiled = ".mpy" ∧
      pySuffix (s ++ ".py") = ".py" ∧
      (".mpy" : String) ≠ ".py" ∧
      fl.dir_path_on_board = pathStr d := by
  have hrel : (d ++ [s ++ ".py"] : List String) ≠ [] := by simp
  have hnm : (d ++ [s ++ ".py"] : List String).getLast? = some (s ++ ".py") := by simp
  refine ⟨_, _, File.init_some root sc (d ++ [s ++ ".py"]) bs (s ++ ".py") hrel hnm,
    ?_, ?_, ?_, by decide, ?_⟩
  · show pathStr ((d ++ [s ++ ".py"]).dropLast ++
        [pyWithSuffix (s ++ ".py") (pySuffix (compiledName (s ++ ".py")))])
      = pathStr (d ++ [s ++ ".mpy"])
    rw [compiledName_py, pySuffix_mpy s hs, pyWithSuffix_py s ".mpy" hs,
      List.dropLast_concat]
  · show pySuffix (compiledName (s ++ ".py")) = ".mpy"
    rw [compiledName_py, pySuffix_mpy s hs]
  · exact pySuffix_py s hs
  · show pathStr (d ++ [s ++ ".py"]).dropLast = pathStr d
    rw [List.dropLast_concat]

theorem C7_device_path_witness :
    ∃ fl sc',
      File.init ["r"] [] (["r"] ++ (["pkg"] ++ ["x" ++ ".py"])) (some [7])
        = some (fl, sc') ∧
      fl.path_on_board = pathStr (["pkg"] ++ ["x" ++ ".mpy"]) ∧
      pySuffix fl.path_compiled = ".mpy" ∧
      pySuffix ("x" ++ ".py") = ".py" ∧
      (".mpy" : String) ≠ ".py" ∧
      fl.dir_path_on_board = pathStr ["pkg"] :=
  C7_device_path ["r"] ["pkg"] "x" [7] [] (by decide)

/-- Claim C8: the descriptor's content hash is the 20-byte SHA-1 digest of
the compiled artifact's bytes, not the source bytes; two files whose
compiled outputs are byte-identical receive identical hashes. -/
theorem C8_hash_of_compiled_bytes :
    (∀ (root : List String) (sc : Scratch) (fp : List String) (bs : List Nat),
       (File.init root sc fp (some bs)).isSome →
       ∃ fl sc', File.init root sc fp (some bs) = some (fl, sc') ∧
         fl.hash = sha1 bs ∧ fl.hash.length = 20) ∧
    (∀ (root1 : List String) (sc1 : Scratch) (fp1 : List String)
       (root2 : List String) (sc2 : Scratch) (fp2 : List String) (bs : List Nat)
       (fl1 : File) (p1 : Scratch) (fl2 : File) (p2 : Scratch),
       File.init root1 sc1 fp1 (some bs) = some (fl1, p1) →
       File.init root2 sc2 fp2 (some bs) = some (fl2, p2) →
       fl1.hash = fl2.hash) := by
  constructor
  · intro root sc fp bs hsome
    obtain ⟨q, hq⟩ := Option.isSome_iff_exists.mp hsome
    obtain ⟨fl, p⟩ := q
    have hh := File.init_hash root sc fp bs fl p hq
    exact ⟨fl, p, hq, hh, by rw [hh]; exact sha1_length bs⟩
  · intro root1 sc1 fp1 root2 sc2 fp2 bs fl1 p1 fl2 p2 h1 h2
    rw [File.init_hash root1 sc1 fp1 bs fl1 p1 h1,
      File.init_hash root2 sc2 fp2 bs fl2 p2 h2]

theorem C8_hash_of_compiled_bytes_witness :
    ∃ fl sc', File.init ["r"] [] ["r", "a.py"] (some [0]) = some (fl, sc') ∧
      fl.hash = sha1 [0] ∧ fl.hash.length = 20 :=
  C8_hash_of_compiled_bytes.1 ["r"] [] ["r", "a.py"] [0] (by decide)

/-- Claim C9 counterexample: two project files `a/x.py` and `b/x.py` with
distinct compiled bytes.  The earlier descriptor's hash is the SHA-1 of its
own artifact bytes `[1]` — not of the overwriting artifact bytes `[2]` —
so the overwrite does not happen before the earlier file's hash uses the
artifact; only the transfer stage reads the overwritten artifact, sending
bytes `[2]` for both files. -/
theorem C9_counterexample :
    (descriptors ["r"] [⟨["a", "x.py"], some [1]⟩, ⟨["b", "x.py"], some [2]⟩]).map
        (fun fls => fls.map File.hash)
      = some [sha1 [1], sha1 [2]] ∧
    sha1 [1] ≠ sha1 [2] ∧
    (install ["r"] [⟨["a", "x.py"], some [1]⟩, ⟨["b", "x.py"], some [2]⟩]
        ⟨some "1 1", fun _ => true, true⟩ true false).transfers
      = [("a/x.mpy", [2]), ("b/x.mpy", [2])] := by
  refine ⟨by decide, by decide, by decide⟩

/-- Claim C9 (amended): the compiled-artifact path depends only on the
source basename, so two files with the same basename share one artifact
path; each file's hash is computed from its own artifact immediately after
its compilation — before any overwrite — but the later compilation
overwrites the shared artifact before the transfer stage reads it, so both
transfers send the later file's compiled bytes. -/
theorem C9_basename_collision (root d1 d2 : List String) (nm : String)
    (b1 b2 : List Nat) :
    ∃ fl1 fl2 sc,
      (compileAll root [⟨d1 ++ [nm], some b1⟩, ⟨d2 ++ [nm], some b2⟩] []).2
        = some ([fl1, fl2], sc) ∧
      fl1.path_compiled = compiledName nm ∧
      fl2.path_compiled = compiledName nm ∧
      fl1.hash = sha1 b1 ∧
      fl2.hash = sha1 b2 ∧
      (install root [⟨d1 ++ [nm], some b1⟩, ⟨d2 ++ [nm], some b2⟩]
          ⟨some (String.mk ['1', '\n', '1', '\n']), fun _ => true, true⟩
          true false).transfers
        = [(fl1.path_on_board, b2), (fl2.path_on_board, b2)] := by
  have hnm1 : (d1 ++ [nm] : List String).getLast? = some nm := by simp
  have hnm2 : (d2 ++ [nm] : List String).getLast? = some nm := by simp
  have h1 := File.init_some root [] (d1 ++ [nm]) b1 nm (by simp) hnm1
  have h2 := File.init_some root ((compiledName nm, b1) :: []) (d2 ++ [nm]) b2 nm
    (by simp) hnm2
  have hc : (compileAll root [⟨d1 ++ [nm], some b1⟩, ⟨d2 ++ [nm], some b2⟩] []).2
      = some ([{ path := root ++ (d1 ++ [nm]),
                 path_compiled := compiledName nm,
                 hash := sha1 b1,
                 path_on_board := pathStr ((d1 ++ [nm]).dropLast ++
                   [pyWithSuffix nm (pySuffix (compiledName nm))]),
                 dir_path_on_board := pathStr (d1 ++ [nm]).dropLast },
               { path := root ++ (d2 ++ [nm]),
                 path_compiled := compiledName nm,
                 hash := sha1 b2,
                 path_on_board := pathStr ((d2 ++ [nm]).dropLast ++
                   [pyWithSuffix nm (pySuffix (compiledName nm))]),
                 dir_path_on_board := pathStr (d2 ++ [nm]).dropLast }],
              ((compiledName nm, b2) :: (compiledName nm, b1) :: [] : Scratch)) := by
    simp [compileAll, h1, h2]
  refine ⟨_, _, _, hc, rfl, rfl, rfl, rfl, ?_⟩
  have htoks : pySplitWs (String.mk ['1', '\n', '1', '\n']) = ["1", "1"] := by decide
  have hp1 : pyInt "1" = some 1 := by decide
  have hlook : List.lookup (compiledName nm)
      (((compiledName nm, b2) :: (compiledName nm, b1) :: [] : Scratch)) = some b2 := by
    simp [List.lookup]
  simp [install, hc, htoks, transferLoop, hp1, hlook]


theorem C4_cleanup_always_witness :
    (install ["r"] [⟨["pkg", "x.py"], some [1]⟩] ⟨none, fun _ => true, true⟩
        false false).compileDirExists = false ∧
    Ev.cleanup ∈ (install ["r"] [⟨["pkg", "x.py"], some [1]⟩] ⟨none, fun _ => true, true⟩
        false false).trace :=
  C4_cleanup_always ["r"] [⟨["pkg", "x.py"], some [1]⟩] ⟨none, fun _ => true, true⟩
    false false

theorem C9_basename_collision_witness :
    ∃ fl1 fl2 sc,
      (compileAll ["r"] [⟨["a"] ++ ["x.py"], some [1]⟩, ⟨["b"] ++ ["x.py"], some [2]⟩]
          []).2 = some ([fl1, fl2], sc) ∧
      fl1.path_compiled = compiledName "x.py" ∧
      fl2.path_compiled = compiledName "x.py" ∧
      fl1.hash = sha1 [1] ∧
      fl2.hash = sha1 [2] ∧
      (install ["r"] [⟨["a"] ++ ["x.py"], some [1]⟩, ⟨["b"] ++ ["x.py"], some [2]⟩]
          ⟨some (String.mk ['1', '\n', '1', '\n']), fun _ => true, true⟩
          true false).transfers
        = [(fl1.path_on_board, [2]), (fl2.path_on_board, [2])] :=
  C9_basename_collision ["r"] ["a"] ["b"] "x.py" [1] [2]
